import Mathlib

/-!
Verification of the interrupt-resume protocol and streaming-chunk
normalization layer of the `langgraph_cli` repository, against its
natural-language specification.

The repository has two CLI variants:
  * `deepagent_code/cli.py` — arrow-key Decision Collector
    (`handle_interrupt_input(num_actions)` returning a list of decisions)
    and timed turn drivers `run_single_turn_sync` / `run_single_turn_async`;
  * `langgraph_utils_cli/cli.py` — numeric-menu Decision Collector
    (`handle_interrupt_input(interrupt_data)` returning a single decision)
    and drivers `run_sync_graph` / `run_async_graph`.

The shallow embedding below mirrors those functions.  External effects
are made explicit: the operator's menu selection and the outcome of the
standard-library JSON parse are parameters; `sys.exit(0)` is modelled as
the `none` branch of an `Option` result; wall-clock time is an explicit
`Nat` threaded through the driver; terminal output is a trace of events.
-/

namespace LanggraphCli

/-- A decision object fed back to the engine on resume.  In the source a
decision is a JSON dict; this embedding keeps the two literal decisions
the collectors construct (`{"type": "approve"}`, `{"type": "reject"}`)
and abstracts an operator-supplied custom JSON object by its source
text. -/
inductive Decision where
  | approve
  | reject
  | custom (payload : String)
deriving Repr, DecidableEq

/-- A serialized action request, the element shape of an interrupt's
`action_requests` list (see `serialize_action_request` in
`langgraph_utils_cli/utils.py` and spec §3).  `args` values are
abstracted to strings; their content is never inspected by the code
under verification. -/
structure ActionRequest where
  tool : String
  tool_call_id : String
  args : List (String × String)
  description : Option String
deriving Repr, DecidableEq

/-- A review config accompanying an action request (spec §3). -/
structure ReviewConfig where
  allowed_decisions : List String
deriving Repr, DecidableEq

/-- The dict stored under an interrupt chunk's `"interrupt"` key.
`action_requests := none` models the dict lacking the
`"action_requests"` key, matching the source's
`interrupt_data.get("action_requests", [])`. -/
structure InterruptData where
  action_requests : Option (List ActionRequest)
  review_configs : Option (List ReviewConfig)
deriving Repr, DecidableEq

/-- Status tag of a normalized streaming chunk (spec §3). -/
inductive ChunkStatus where
  | streaming
  | interrupt
  | complete
  | error
deriving Repr, DecidableEq

/-- A normalized streaming chunk as consumed by the turn drivers.  Only
the fields the drivers inspect are modelled: `chunk.get("status")` and
`chunk.get("interrupt", {})`; `interrupt := none` models the absent
key. -/
structure Chunk where
  status : ChunkStatus
  interrupt : Option InterruptData
deriving Repr, DecidableEq

/-- `chunk.get("interrupt", {})` — the empty dict is an `InterruptData`
with both keys absent. -/
def interruptGet (c : Chunk) : InterruptData :=
  c.interrupt.getD ⟨none, none⟩

/-- `interrupt_data.get("action_requests", [])`. -/
def actionRequestsGet (d : InterruptData) : List ActionRequest :=
  d.action_requests.getD []

/-- `num_pending_actions = len(action_requests) if action_requests else 1`
from `run_single_turn_sync` / `run_single_turn_async`
(`deepagent_code/cli.py`): an empty (or absent) list is falsy, so the
pending-action count defaults to 1. -/
def pendingCount (c : Chunk) : Nat :=
  let action_requests := actionRequestsGet (interruptGet c)
  if action_requests.isEmpty then 1 else action_requests.length

/-- `handle_interrupt_input(num_actions)` from `deepagent_code/cli.py`.
The operator's selection in `select_option` is the parameter `menu`
(0 = approve all, 1 = reject all, 2 = custom JSON, anything else = the
Exit row); `parsed` is the outcome of `json.loads` on the operator's
custom string (`none` = `json.JSONDecodeError`, in which case the source
prints an error and substitutes reject-all).  `sys.exit(0)` is the
`none` result. -/
def handle_interrupt_input (num_actions : Nat) (menu : Nat)
    (parsed : Option Decision) : Option (List Decision) :=
  if menu == 0 then
    some (List.replicate num_actions Decision.approve)
  else if menu == 1 then
    some (List.replicate num_actions Decision.reject)
  else if menu == 2 then
    match parsed with
    | some decision => some (List.replicate num_actions decision)
    | none => some (List.replicate num_actions Decision.reject)
  else
    none

/-- `handle_interrupt_input(interrupt_data)` from
`langgraph_utils_cli/cli.py`.  The numeric choice comes from
`click.prompt` (1 = approve, 2 = reject, 3 = custom JSON, anything
else = exit); `parsed` is the `json.loads` outcome for choice 3.  The
function returns a SINGLE decision object, not a list; `interrupt_data`
is only displayed, never used to size the result. -/
def lgHandleInterruptInput (interrupt_data : InterruptData) (choice : Int)
    (parsed : Option Decision) : Option Decision :=
  if choice == 1 then
    some Decision.approve
  else if choice == 2 then
    some Decision.reject
  else if choice == 3 then
    match parsed with
    | some decision => some decision
    | none => some Decision.reject
  else
    none

/-- The union input type fed to the engine on each loop iteration
(spec §3 `TurnInput`): a user message wrapped in the engine's
message-list convention, a resume signal carrying a decision sequence,
or an opaque raw payload. -/
inductive TurnInput where
  | messages (msgs : List (String × String))
  | resume (decisions : List Decision)
  | raw (payload : String)
deriving Repr, DecidableEq

/-- Modelled from the spec: `prepare_agent_input` lives in the
repository's `utils.py`, which is not among the provided sources (only
its tests and callers are).  Spec §4.4: exactly one of three inputs
must be supplied — a free-text message, a decision sequence, or an
opaque raw payload — enforced at entry (fails with a validation error
if zero or more-than-one is supplied); a message is wrapped as a single
user-role message, decisions become a resume signal carried verbatim,
raw input passes through unchanged.  The raised `ValueError` is the
`Except.error` branch, with the messages the tests match on. -/
def prepare_agent_input (message : Option String)
    (decisions : Option (List Decision)) (raw_input : Option String) :
    Except String TurnInput :=
  let provided := (if message.isSome then 1 else 0)
    + (if decisions.isSome then 1 else 0)
    + (if raw_input.isSome then 1 else 0)
  if provided == 0 then
    Except.error "Must provide one of: message, decisions, or raw_input"
  else if 1 < provided then
    Except.error "Can only provide one of: message, decisions, or raw_input"
  else
    match message, decisions, raw_input with
    | some m, _, _ => Except.ok (TurnInput.messages [("user", m)])
    | _, some ds, _ => Except.ok (TurnInput.resume ds)
    | _, _, r => Except.ok (TurnInput.raw (r.getD ""))

/-- A raw (wire-shaped) action request as it arrives inside an engine
interrupt, before normalization: each field may be present or absent,
whether the producer used dict keys or object attributes (the
dict-vs-attribute distinction collapses in the embedding).  Spec §3
requires `tool` to be present, so it is mandatory here. -/
structure RawAction where
  tool : String
  tool_call_id : Option String
  args : Option (List (String × String))
  description : Option String
deriving Repr, DecidableEq

/-- Modelled from the spec: `serialize_action_request` lives in the
repository's `utils.py`, which is not among the provided sources.
Spec §4.2/§3: normalizes dict-shaped or attribute-shaped input into the
ActionRequest fields, filling `tool_call_id` with `call_{index}` when
absent; an id present in the input is kept verbatim. -/
def serialize_action_request (action : RawAction) (index : Nat) :
    ActionRequest :=
  { tool := action.tool
    tool_call_id :=
      match action.tool_call_id with
      | some id => id
      | none => "call_" ++ toString index
    args := action.args.getD []
    description := action.description }

/-- The closed set of wire shapes an engine interrupt value may take
(spec §4.2): a 2-tuple of sequences; a 1-tuple wrapping a single object
carrying the two keys as dict keys or attributes; a bare mapping with
the two keys; or a lone ActionRequest-shaped object. -/
inductive RawInterruptValue where
  | pair (actions : List RawAction) (configs : List ReviewConfig)
  | single (actions : List RawAction) (configs : List ReviewConfig)
  | mapping (actions : List RawAction) (configs : List ReviewConfig)
  | lone (action : RawAction)
deriving Repr, DecidableEq

/-- Modelled from the spec: `parse_interrupt_value` lives in the
repository's `utils.py`, which is not among the provided sources.
Spec §4.2: the 2-tuple's sequences are used directly; the 1-tuple is
unwrapped and its two fields read through whichever accessor succeeds;
a bare mapping's two keys are read; a lone ActionRequest-shaped object
is wrapped in a singleton sequence with an empty review-config
sequence. -/
def parse_interrupt_value (v : RawInterruptValue) :
    List RawAction × List ReviewConfig :=
  match v with
  | RawInterruptValue.pair actions configs => (actions, configs)
  | RawInterruptValue.single actions configs => (actions, configs)
  | RawInterruptValue.mapping actions configs => (actions, configs)
  | RawInterruptValue.lone action => ([action], [])

/-- The canonical normalized interrupt payload (spec §3). -/
structure InterruptPayload where
  action_requests : List ActionRequest
  review_configs : List ReviewConfig
deriving Repr, DecidableEq

/-- Serialize every action entry at its position in the batch:
`serialize_action_request(action, index)` for each index, mirroring an
enumerate-style traversal starting at `start`. -/
def serializeAllActions (actions : List RawAction) (start : Nat) :
    List ActionRequest :=
  match actions with
  | [] => []
  | action :: rest =>
    serialize_action_request action start :: serializeAllActions rest (start + 1)

/-- Modelled from the spec: `process_interrupt` lives in the
repository's `utils.py`, which is not among the provided sources.
Spec §4.2: parse the raw value into the two sequences, then normalize
each action entry with `serialize_action_request(action, index)`,
producing the canonical `InterruptPayload`. -/
def process_interrupt (v : RawInterruptValue) : InterruptPayload :=
  { action_requests := serializeAllActions (parse_interrupt_value v).1 0
    review_configs := (parse_interrupt_value v).2 }

/-- One observable terminal-side action of the deepagent turn driver.
`spinnerStart`/`spinnerStop` are `Spinner.start`/`Spinner.stop`,
`printChunk` is the call to the chunk renderer `print_chunk`,
`collect` is the call to the Decision Collector
`handle_interrupt_input(num_pending_actions)`, and `resume` records the
decisions handed to `prepare_agent_input(decisions=...)` for the next
engine invocation. -/
inductive Event where
  | spinnerStart
  | spinnerStop
  | printChunk (c : Chunk)
  | collect (numActions : Nat)
  | resume (decisions : List Decision)
deriving Repr, DecidableEq

/-- The loop state of the per-invocation `for chunk in stream:` loop of
`run_single_turn_sync` / `run_single_turn_async`, together with the
events it emitted. -/
structure ScanState where
  events : List Event
  first_chunk : Bool
  has_interrupt : Bool
  num_pending_actions : Nat
deriving Repr, DecidableEq

/-- The `for chunk in stream_graph_updates(...)` body of
`run_single_turn_sync` (`deepagent_code/cli.py`), threading the
`first_chunk` / `has_interrupt` / `num_pending_actions` variables: on
the first chunk the spinner is stopped; every chunk is rendered; an
interrupt chunk sets `has_interrupt` and OVERWRITES
`num_pending_actions` with that chunk's count. -/
def chunkScan (chunks : List Chunk) (first_chunk : Bool)
    (has_interrupt : Bool) (num_pending_actions : Nat) : ScanState :=
  match chunks with
  | [] => ⟨[], first_chunk, has_interrupt, num_pending_actions⟩
  | c :: rest =>
    let stopEvents : List Event :=
      if first_chunk then [Event.spinnerStop] else []
    let has_interrupt' :=
      if c.status == ChunkStatus.interrupt then true else has_interrupt
    let num_pending' :=
      if c.status == ChunkStatus.interrupt then pendingCount c
      else num_pending_actions
    let s := chunkScan rest false has_interrupt' num_pending'
    ⟨stopEvents ++ Event.printChunk c :: s.events,
     s.first_chunk, s.has_interrupt, s.num_pending_actions⟩

/-- One planned engine invocation in a modelled run: the chunk list the
engine's stream yields, and the wall-clock duration consumed by
streaming it to exhaustion. -/
structure InvocationPlan where
  chunks : List Chunk
  duration : Nat
deriving Repr, DecidableEq

/-- One operator interaction with the Decision Collector: the menu row
selected in `select_option`, the `json.loads` outcome for the custom
path, and the wall-clock time the human took. -/
structure OperatorChoice where
  menu : Nat
  parsed : Option Decision
  thinkTime : Nat
deriving Repr, DecidableEq

/-- How a modelled turn ended: `finished elapsed` is the normal
`return time.time() - start_time`; `exited` is `sys.exit(0)` from the
collector's Exit row; `outOfModel` means the finite plan or choice list
was exhausted while the source loop would have continued (an artifact
of modelling the external engine/operator by finite lists, not a
behavior of the code). -/
inductive TurnOutcome where
  | finished (elapsed : Nat)
  | exited
  | outOfModel
deriving Repr, DecidableEq

/-- The observable result of a modelled turn: the full event trace, the
outcome, and how many engine invocations and collector calls were
consumed. -/
structure TurnRun where
  events : List Event
  outcome : TurnOutcome
  invocationsUsed : Nat
  choicesUsed : Nat
deriving Repr, DecidableEq

/-- The `while True:` loop of `run_single_turn_sync`
(`deepagent_code/cli.py`): each iteration starts the spinner, streams
one engine invocation (scanning for interrupts), stops the spinner if
no chunk ever did, then either collects decisions and loops with the
resume input, or breaks and returns the elapsed time since
`start_time`.  `now` is the current wall-clock reading; streaming an
invocation advances it by the plan's duration, the collector by the
operator's think time. -/
def runTurnLoop (interactive : Bool) (startTime : Nat) :
    List InvocationPlan → List OperatorChoice → Nat → TurnRun
  | [], _, _ => ⟨[], TurnOutcome.outOfModel, 0, 0⟩
  | plan :: restPlans, choices, now =>
    let s := chunkScan plan.chunks true false 0
    let invEvents := Event.spinnerStart :: s.events
      ++ (if s.first_chunk then [Event.spinnerStop] else [])
    let now1 := now + plan.duration
    if s.has_interrupt && interactive then
      match choices with
      | [] => ⟨invEvents, TurnOutcome.outOfModel, 1, 0⟩
      | ch :: restChoices =>
        match handle_interrupt_input s.num_pending_actions ch.menu ch.parsed with
        | none =>
          ⟨invEvents ++ [Event.collect s.num_pending_actions],
           TurnOutcome.exited, 1, 1⟩
        | some decisions =>
          let r := runTurnLoop interactive startTime restPlans restChoices
            (now1 + ch.thinkTime)
          ⟨invEvents ++ Event.collect s.num_pending_actions
             :: Event.resume decisions :: r.events,
           r.outcome, r.invocationsUsed + 1, r.choicesUsed + 1⟩
    else
      ⟨invEvents, TurnOutcome.finished (now1 - startTime), 1, 0⟩

/-- `run_single_turn_sync` from `deepagent_code/cli.py`: record
`start_time = time.time()` and run the invoke-collect-resume loop. -/
def run_single_turn_sync (plans : List InvocationPlan)
    (choices : List OperatorChoice) (interactive : Bool)
    (startTime : Nat) : TurnRun :=
  runTurnLoop interactive startTime plans choices startTime

/-- `run_single_turn_async` from `deepagent_code/cli.py` is the same
state machine as `run_single_turn_sync`; the two differ only in how the
next stream element is awaited (`async for` vs `for`), which the
embedding erases. -/
def run_single_turn_async (plans : List InvocationPlan)
    (choices : List OperatorChoice) (interactive : Bool)
    (startTime : Nat) : TurnRun :=
  run_single_turn_sync plans choices interactive startTime

/-- One observable action of the `langgraph_utils_cli` turn driver:
rendering a chunk, calling the Decision Collector with the last
interrupt's data, or resuming with a decision list. -/
inductive LgEvent where
  | printChunk (c : Chunk)
  | collect (d : InterruptData)
  | resume (decisions : List Decision)
deriving Repr, DecidableEq

/-- Outcome of a modelled `run_sync_graph` / `run_async_graph` turn. -/
inductive LgOutcome where
  | finished
  | exited
  | outOfModel
deriving Repr, DecidableEq

/-- Observable result of a modelled `langgraph_utils_cli` turn. -/
structure LgRun where
  events : List LgEvent
  outcome : LgOutcome
  invocationsUsed : Nat
deriving Repr, DecidableEq

/-- The `for chunk in stream_graph_updates(...)` body of
`run_sync_graph` (`langgraph_utils_cli/cli.py`): on each interrupt
chunk set `has_interrupt = True` and overwrite `interrupt_data` with
`chunk.get("interrupt", {})`. -/
def lgScan (chunks : List Chunk) (has_interrupt : Bool)
    (interrupt_data : Option InterruptData) :
    Bool × Option InterruptData :=
  match chunks with
  | [] => (has_interrupt, interrupt_data)
  | c :: rest =>
    if c.status == ChunkStatus.interrupt then
      lgScan rest true (some (interruptGet c))
    else
      lgScan rest has_interrupt interrupt_data

/-- The `while True:` loop of `run_sync_graph`
(`langgraph_utils_cli/cli.py`): stream one invocation rendering every
chunk; if an interrupt was seen and `interactive` holds, call
`handle_interrupt_input(interrupt_data)` for ONE decision and resume
with the one-element list `[decision]`; otherwise break.  Each entry of
`choices` is the operator's numeric menu choice and the `json.loads`
outcome for the custom path.  `run_async_graph` is the same state
machine with `async for` in place of `for`. -/
def lgRunLoop (interactive : Bool) :
    List (List Chunk) → List (Int × Option Decision) → LgRun
  | [], _ => ⟨[], LgOutcome.outOfModel, 0⟩
  | chunks :: restStreams, choices =>
    let printEvents := chunks.map LgEvent.printChunk
    let st := lgScan chunks false none
    if st.1 && interactive then
      match st.2 with
      | none => ⟨printEvents, LgOutcome.outOfModel, 1⟩
      | some idata =>
        match choices with
        | [] => ⟨printEvents, LgOutcome.outOfModel, 1⟩
        | (menu, parsed) :: restChoices =>
          match lgHandleInterruptInput idata menu parsed with
          | none =>
            ⟨printEvents ++ [LgEvent.collect idata], LgOutcome.exited, 1⟩
          | some decision =>
            let r := lgRunLoop interactive restStreams restChoices
            ⟨printEvents ++ LgEvent.collect idata
               :: LgEvent.resume [decision] :: r.events,
             r.outcome, r.invocationsUsed + 1⟩
    else
      ⟨printEvents, LgOutcome.finished, 1⟩

/-- Spinner discipline checker: scan an event trace tracking whether
the spinner thread is running (`Spinner.start` sets it, `Spinner.stop`
clears it) and require the spinner to be stopped at every chunk render,
at every Decision Collector call, and at the end of the trace (the
driver's return). -/
def spinnerOkAux : List Event → Bool → Bool
  | [], running => !running
  | Event.spinnerStart :: rest, _ => spinnerOkAux rest true
  | Event.spinnerStop :: rest, _ => spinnerOkAux rest false
  | Event.printChunk _ :: rest, running => !running && spinnerOkAux rest running
  | Event.collect _ :: rest, running => !running && spinnerOkAux rest running
  | Event.resume _ :: rest, running => spinnerOkAux rest running

/-- Is this event a Decision Collector call? -/
def isCollect : Event → Bool
  | Event.collect _ => true
  | _ => false

/-- Is this event a spinner start (the marker opening each engine
invocation in the trace)? -/
def isStart : Event → Bool
  | Event.spinnerStart => true
  | _ => false

/-- The events belonging to the first engine invocation of a turn: drop
the opening `spinnerStart` and take everything up to the next one. -/
def firstInvocationEvents (r : TurnRun) : List Event :=
  (r.events.drop 1).takeWhile (fun e => !isStart e)

/-- Specification-side description of the driver's pending-action
bookkeeping: the pending count of the LAST interrupt-status chunk in
the stream, or `default` when the stream has no interrupt chunk. -/
def lastInterruptPending (chunks : List Chunk) (default : Nat) : Nat :=
  match (chunks.filter fun c => c.status == ChunkStatus.interrupt).getLast? with
  | some c => pendingCount c
  | none => default

/-- A sample serialized action request, used by concrete witnesses. -/
def sampleAction (i : Nat) : ActionRequest :=
  ⟨"t", "call_" ++ toString i, [("p", "v")], none⟩

/-- A sample interrupt carrying TWO pending action requests. -/
def sampleInterrupt2 : InterruptData :=
  ⟨some [sampleAction 0, sampleAction 1], some []⟩

/-- An interrupt-status chunk with two pending action requests. -/
def sampleInterruptChunk2 : Chunk :=
  ⟨ChunkStatus.interrupt, some sampleInterrupt2⟩

/-- An interrupt-status chunk with an EMPTY action-request list. -/
def sampleInterruptChunkEmpty : Chunk :=
  ⟨ChunkStatus.interrupt, some ⟨some [], some []⟩⟩

/-- A plain streaming chunk. -/
def sampleStreamChunk : Chunk :=
  ⟨ChunkStatus.streaming, none⟩

/-! ## Helper lemmas -/

theorem serializeAllActions_length (actions : List RawAction) (start : Nat) :
    (serializeAllActions actions start).length = actions.length := by
  induction actions generalizing start with
  | nil => rfl
  | cons a rest ih => simp [serializeAllActions, ih]

theorem mem_serializeAllActions {ar : ActionRequest} :
    ∀ (actions : List RawAction) (start : Nat),
      ar ∈ serializeAllActions actions start →
      ∃ a i, a ∈ actions ∧ ar = serialize_action_request a i := by
  intro actions
  induction actions with
  | nil => intro start h; simp [serializeAllActions] at h
  | cons a rest ih =>
    intro start h
    simp only [serializeAllActions, List.mem_cons] at h
    rcases h with h | h
    · exact ⟨a, start, by simp, h⟩
    · obtain ⟨b, i, hb, he⟩ := ih (start + 1) h
      exact ⟨b, i, by simp [hb], he⟩

theorem serialize_tool_call_id_ne_empty (a : RawAction) (i : Nat)
    (h : ∀ id, a.tool_call_id = some id → id ≠ "") :
    (serialize_action_request a i).tool_call_id ≠ "" := by
  cases hid : a.tool_call_id with
  | some id =>
    have hv : (serialize_action_request a i).tool_call_id = id := by
      simp [serialize_action_request, hid]
    rw [hv]
    exact h id hid
  | none =>
    have hv : (serialize_action_request a i).tool_call_id = "call_" ++ toString i := by
      simp [serialize_action_request, hid]
    rw [hv]
    intro hc
    have hlen := congrArg String.length hc
    rw [String.length_append] at hlen
    have h5 : ("call_" : String).length = 5 := rfl
    have h0 : ("" : String).length = 0 := rfl
    omega

/-! ## Claims about the Resume Input Builder and Interrupt Extractor -/

/-- **C4**: `prepare_agent_input` fails with a validation error whenever
zero of its three input kinds `{message, decisions, raw_input}` are
supplied, and whenever two or more are supplied simultaneously; it
succeeds exactly when exactly one input kind is supplied. -/
theorem prepare_agent_input_exactly_one :
    ∀ (message : Option String) (decisions : Option (List Decision))
      (raw_input : Option String),
      (prepare_agent_input message decisions raw_input).isOk = true ↔
        (if message.isSome then 1 else 0) + (if decisions.isSome then 1 else 0)
          + (if raw_input.isSome then 1 else 0) = 1 := by
  intro message decisions raw_input
  rcases message with _ | m <;> rcases decisions with _ | ds <;>
    rcases raw_input with _ | r <;>
    simp [prepare_agent_input, Except.isOk, Except.toBool]

/-- **C5**: `serialize_action_request(action, i)` sets `tool_call_id` to
exactly `"call_" ++ i` when the action lacks one, and keeps a present id
verbatim. -/
theorem serialize_tool_call_id_fallback :
    ∀ (action : RawAction) (index : Nat),
      (action.tool_call_id = none →
        (serialize_action_request action index).tool_call_id
          = "call_" ++ toString index) ∧
      (∀ id, action.tool_call_id = some id →
        (serialize_action_request action index).tool_call_id = id) := by
  intro action index
  constructor
  · intro h
    simp [serialize_action_request, h]
  · intro id h
    simp [serialize_action_request, h]

/-- Witness for **C5**: the spec's own example — the action
`{"tool": "t", "args": {}}` at index 5 receives `call_5` — and a
present id `call_123` is kept verbatim. -/
theorem serialize_tool_call_id_fallback_witness :
    (serialize_action_request ⟨"t", none, some [], none⟩ 5).tool_call_id = "call_5" ∧
    (serialize_action_request ⟨"t", some "call_123", some [], none⟩ 0).tool_call_id
      = "call_123" := by
  constructor
  · rw [(serialize_tool_call_id_fallback ⟨"t", none, some [], none⟩ 5).1 rfl]
    decide
  · exact (serialize_tool_call_id_fallback ⟨"t", some "call_123", some [], none⟩ 0).2
      "call_123" rfl

/-- Counterexample to **C6** as stated: the 2-tuple wire shape is in
§4.2's enumerated set and its sequences may be empty, in which case the
extractor yields an `InterruptPayload` whose `action_requests` has
length 0, not ≥ 1. -/
theorem interrupt_extractor_counterexample :
    (process_interrupt (RawInterruptValue.pair [] [])).action_requests.length = 0 ∧
    ¬ (1 ≤ (process_interrupt (RawInterruptValue.pair [] [])).action_requests.length) := by
  decide

/-- **C6** (amended): for every raw interrupt value in §4.2's shape set
whose action-request sequence is non-empty and whose explicitly present
`tool_call_id`s are non-empty strings, the extractor yields an
`InterruptPayload` whose `action_requests` has the same length as the
supplied sequence (hence ≥ 1) and in which every action's
`tool_call_id` is a non-empty string (present ids are kept verbatim, so
a present empty id would survive; absent ids become the non-empty
`call_{index}`). -/
theorem interrupt_extractor_amended :
    ∀ (v : RawInterruptValue),
      (parse_interrupt_value v).1 ≠ [] →
      (∀ a, a ∈ (parse_interrupt_value v).1 →
        ∀ id, a.tool_call_id = some id → id ≠ "") →
      (process_interrupt v).action_requests.length
          = (parse_interrupt_value v).1.length ∧
      1 ≤ (process_interrupt v).action_requests.length ∧
      ∀ ar, ar ∈ (process_interrupt v).action_requests → ar.tool_call_id ≠ "" := by
  intro v hne hids
  have hlen : (process_interrupt v).action_requests.length
      = (parse_interrupt_value v).1.length := by
    simp [process_interrupt, serializeAllActions_length]
  refine ⟨hlen, ?_, ?_⟩
  · rw [hlen]
    exact List.length_pos.mpr hne
  · intro ar har
    simp only [process_interrupt] at har
    obtain ⟨a, i, ha, he⟩ := mem_serializeAllActions _ _ har
    rw [he]
    exact serialize_tool_call_id_ne_empty a i (hids a ha)

/-- Witness for **C6** (amended): a lone ActionRequest-shaped object
with no id yields a singleton payload whose synthesized id is
non-empty. -/
theorem interrupt_extractor_amended_witness :
    1 ≤ (process_interrupt (RawInterruptValue.lone ⟨"t", none, none, none⟩)).action_requests.length ∧
    ∀ ar, ar ∈ (process_interrupt (RawInterruptValue.lone ⟨"t", none, none, none⟩)).action_requests →
      ar.tool_call_id ≠ "" := by
  have h := interrupt_extractor_amended (RawInterruptValue.lone ⟨"t", none, none, none⟩)
    (by simp [parse_interrupt_value])
    (by
      intro a ha id hid
      simp [parse_interrupt_value] at ha
      subst ha
      simp at hid)
  exact ⟨h.2.1, h.2.2⟩

/-! ## Claims about the Decision Collector -/

theorem handle_approve_all (n : Nat) (parsed : Option Decision) :
    handle_interrupt_input n 0 parsed
      = some (List.replicate n Decision.approve) := rfl

theorem handle_reject_all (n : Nat) (parsed : Option Decision) :
    handle_interrupt_input n 1 parsed
      = some (List.replicate n Decision.reject) := rfl

theorem handle_custom_ok (n : Nat) (d : Decision) :
    handle_interrupt_input n 2 (some d) = some (List.replicate n d) := rfl

theorem handle_custom_invalid (n : Nat) :
    handle_interrupt_input n 2 none
      = some (List.replicate n Decision.reject) := rfl

/-- Every resume input the `langgraph_utils_cli` driver ever builds is
the one-element list `[decision]`, independent of the interrupt's
pending-action count. -/
theorem lgRunLoop_resume_length :
    ∀ (interactive : Bool) (streams : List (List Chunk))
      (choices : List (Int × Option Decision)) (ds : List Decision),
      LgEvent.resume ds ∈ (lgRunLoop interactive streams choices).events →
      ds.length = 1 := by
  intro interactive streams
  induction streams with
  | nil =>
    intro choices ds h
    simp [lgRunLoop] at h
  | cons chunks rest ih =>
    intro choices ds h
    simp only [lgRunLoop] at h
    split at h
    · split at h
      · simp at h
      · split at h
        · simp at h
        · split at h
          · simp at h
          · simp only [List.mem_append, List.mem_cons, List.mem_map] at h
            rcases h with ⟨c, -, hc⟩ | h | h | h
            · simp at hc
            · simp at h
            · injection h with h
              rw [h]
              rfl
            · exact ih _ ds h
    · simp at h

/-- Counterexample to **C1** as stated: in the `langgraph_utils_cli`
variant, an interrupt with TWO pending action requests answered with
approve-all resumes with the one-element list `[approve]`, so the
resume input does not carry one decision per pending action. -/
theorem decision_count_counterexample :
    (actionRequestsGet (interruptGet sampleInterruptChunk2)).length = 2 ∧
    LgEvent.resume [Decision.approve]
      ∈ (lgRunLoop true [[sampleInterruptChunk2]] [(1, none)]).events ∧
    ¬ (∀ ds, LgEvent.resume ds
        ∈ (lgRunLoop true [[sampleInterruptChunk2]] [(1, none)]).events →
        ds.length = 2) := by
  refine ⟨by decide, by decide, ?_⟩
  intro h
  exact absurd (h [Decision.approve] (by decide)) (by decide)

/-- **C1** (amended): in the `deepagent_code` variant every non-exiting
choice path of `handle_interrupt_input` returns exactly
`pending_action_count` decisions; in the `langgraph_utils_cli` variant
the collector returns a single decision and the driver always resumes
with a one-element decision list, regardless of the pending-action
count. -/
theorem decision_count_amended :
    (∀ (n menu : Nat) (parsed : Option Decision) (ds : List Decision),
        1 ≤ n → handle_interrupt_input n menu parsed = some ds →
        ds.length = n) ∧
    (∀ (interactive : Bool) (streams : List (List Chunk))
        (choices : List (Int × Option Decision)) (ds : List Decision),
        LgEvent.resume ds ∈ (lgRunLoop interactive streams choices).events →
        ds.length = 1) := by
  constructor
  · intro n menu parsed ds _ h
    simp only [handle_interrupt_input] at h
    split_ifs at h
    · injection h with h; subst h; simp
    · injection h with h; subst h; simp
    · rcases parsed with _ | d
      · injection h with h; subst h; simp
      · injection h with h; subst h; simp
  · exact lgRunLoop_resume_length

/-- Witness for **C1** (amended): two pending actions, approve-all, in
both variants. -/
theorem decision_count_amended_witness :
    1 ≤ 2 ∧
    handle_interrupt_input 2 0 none
      = some [Decision.approve, Decision.approve] ∧
    [Decision.approve, Decision.approve].length = 2 ∧
    [Decision.approve].length = 1 := by
  refine ⟨by decide, by decide, ?_, ?_⟩
  · exact decision_count_amended.1 2 0 none [Decision.approve, Decision.approve]
      (by decide) (by decide)
  · exact decision_count_amended.2 true [[sampleInterruptChunk2]] [(1, none)]
      [Decision.approve] (by decide)

/-- Counterexample to **C3** as stated: in the `langgraph_utils_cli`
variant a failed custom-JSON parse makes the collector return the
SINGLE decision `{"type": "reject"}`; with two pending action requests
the driver resumes with `[reject]`, not with one reject per pending
action. -/
theorem custom_json_counterexample :
    (actionRequestsGet (interruptGet sampleInterruptChunk2)).length = 2 ∧
    lgHandleInterruptInput sampleInterrupt2 3 none = some Decision.reject ∧
    LgEvent.resume [Decision.reject]
      ∈ (lgRunLoop true [[sampleInterruptChunk2]] [(3, none)]).events ∧
    LgEvent.resume (List.replicate 2 Decision.reject)
      ∉ (lgRunLoop true [[sampleInterruptChunk2]] [(3, none)]).events := by
  decide

/-! ## Structural lemmas about the deepagent driver -/

theorem chunkScan_events_shape :
    ∀ (chunks : List Chunk) (first hi : Bool) (np : Nat) (e : Event),
      e ∈ (chunkScan chunks first hi np).events →
      e = Event.spinnerStop ∨ ∃ c, c ∈ chunks ∧ e = Event.printChunk c := by
  intro chunks
  induction chunks with
  | nil =>
    intro first hi np e h
    simp [chunkScan] at h
  | cons c rest ih =>
    intro first hi np e h
    simp only [chunkScan] at h
    rcases List.mem_append.mp h with h1 | h2
    · left
      cases first <;> simp at h1
      exact h1
    · rcases List.mem_cons.mp h2 with h3 | h4
      · exact Or.inr ⟨c, by simp, h3⟩
      · rcases ih false _ _ e h4 with h5 | ⟨c', hc', he'⟩
        · exact Or.inl h5
        · exact Or.inr ⟨c', by simp [hc'], he'⟩

theorem chunkScan_print_mem :
    ∀ (chunks : List Chunk) (first hi : Bool) (np : Nat) (c : Chunk),
      c ∈ chunks → Event.printChunk c ∈ (chunkScan chunks first hi np).events := by
  intro chunks
  induction chunks with
  | nil =>
    intro first hi np c h
    simp at h
  | cons a rest ih =>
    intro first hi np c h
    simp only [chunkScan]
    rcases List.mem_cons.mp h with h | h
    · subst h
      exact List.mem_append.mpr (Or.inr (List.mem_cons_self _ _))
    · exact List.mem_append.mpr (Or.inr (List.mem_cons_of_mem _ (ih _ _ _ c h)))

theorem lastInterruptPending_cons_interrupt (c : Chunk) (rest : List Chunk)
    (np : Nat) (hc : (c.status == ChunkStatus.interrupt) = true) :
    lastInterruptPending (c :: rest) np
      = lastInterruptPending rest (pendingCount c) := by
  unfold lastInterruptPending
  simp only [List.filter_cons, hc, if_true]
  cases hf : rest.filter (fun x => x.status == ChunkStatus.interrupt) with
  | nil => simp
  | cons d fr =>
    rw [List.getLast?_cons_cons]
    cases hg : (d :: fr).getLast? with
    | none =>
      have hs := List.getLast?_isSome (l := d :: fr)
      rw [hg] at hs
      simp at hs
    | some x => rfl

theorem lastInterruptPending_cons_other (c : Chunk) (rest : List Chunk)
    (np : Nat) (hc : (c.status == ChunkStatus.interrupt) = false) :
    lastInterruptPending (c :: rest) np = lastInterruptPending rest np := by
  unfold lastInterruptPending
  simp only [List.filter_cons, hc]
  simp

theorem chunkScan_pending :
    ∀ (chunks : List Chunk) (first hi : Bool) (np : Nat),
      (chunkScan chunks first hi np).num_pending_actions
        = lastInterruptPending chunks np := by
  intro chunks
  induction chunks with
  | nil =>
    intro first hi np
    rfl
  | cons c rest ih =>
    intro first hi np
    simp only [chunkScan]
    cases hc : (c.status == ChunkStatus.interrupt) with
    | true =>
      simp [ih, lastInterruptPending_cons_interrupt c rest np hc]
    | false =>
      simp [ih, lastInterruptPending_cons_other c rest np hc]

theorem chunkScan_has_interrupt :
    ∀ (chunks : List Chunk) (first hi : Bool) (np : Nat),
      (chunkScan chunks first hi np).has_interrupt
        = (hi || chunks.any (fun c => c.status == ChunkStatus.interrupt)) := by
  intro chunks
  induction chunks with
  | nil =>
    intro first hi np
    simp [chunkScan]
  | cons c rest ih =>
    intro first hi np
    simp only [chunkScan, List.any_cons]
    cases hc : (c.status == ChunkStatus.interrupt) with
    | true => simp [ih]
    | false => simp [ih, hc]

theorem runTurnLoop_invocations_pos (interactive : Bool) (t0 : Nat)
    (plans : List InvocationPlan) (choices : List OperatorChoice) (now : Nat)
    (h : plans ≠ []) :
    1 ≤ (runTurnLoop interactive t0 plans choices now).invocationsUsed := by
  rcases plans with _ | ⟨plan, restPlans⟩
  · exact absurd rfl h
  · simp only [runTurnLoop]
    split
    · split
      · simp
      · split
        · simp
        · simp
    · simp

/-- **C3** (amended): a custom-JSON decision that fails to parse is
caught: the `deepagent_code` collector returns one `{"type": "reject"}`
per pending action, the `langgraph_utils_cli` collector returns the
single decision `{"type": "reject"}` (which its driver wraps in a
one-element list); no exception propagates — the deepagent driver
resumes with the reject-all sequence and goes on to invoke the engine
again. -/
theorem custom_json_amended :
    (∀ n : Nat, handle_interrupt_input n 2 none
        = some (List.replicate n Decision.reject)) ∧
    (∀ idata : InterruptData,
        lgHandleInterruptInput idata 3 none = some Decision.reject) ∧
    (∀ (plan : InvocationPlan) (restPlans : List InvocationPlan)
        (restChoices : List OperatorChoice) (tw t0 : Nat),
        (chunkScan plan.chunks true false 0).has_interrupt = true →
        Event.resume (List.replicate
            (chunkScan plan.chunks true false 0).num_pending_actions
            Decision.reject)
          ∈ (run_single_turn_sync (plan :: restPlans)
              (⟨2, none, tw⟩ :: restChoices) true t0).events ∧
        (restPlans ≠ [] →
          2 ≤ (run_single_turn_sync (plan :: restPlans)
              (⟨2, none, tw⟩ :: restChoices) true t0).invocationsUsed)) := by
  refine ⟨fun n => rfl, fun idata => rfl, ?_⟩
  intro plan restPlans restChoices tw t0 hint
  constructor
  · simp [run_single_turn_sync, runTurnLoop, hint, handle_custom_invalid]
  · intro hne
    have hpos := runTurnLoop_invocations_pos true t0 restPlans restChoices
      (t0 + plan.duration + tw) hne
    simp only [run_single_turn_sync, runTurnLoop, hint, handle_custom_invalid,
      Bool.true_and, Bool.and_true, if_true]
    omega

/-- Witness for **C3** (amended): two pending actions, custom choice
with unparseable JSON, a second engine invocation available. -/
theorem custom_json_amended_witness :
    handle_interrupt_input 2 2 none = some [Decision.reject, Decision.reject] ∧
    (chunkScan [sampleInterruptChunk2] true false 0).has_interrupt = true ∧
    Event.resume (List.replicate
        (chunkScan [sampleInterruptChunk2] true false 0).num_pending_actions
        Decision.reject)
      ∈ (run_single_turn_sync (⟨[sampleInterruptChunk2], 3⟩ :: [⟨[], 1⟩])
          (⟨2, none, 0⟩ :: []) true 0).events ∧
    2 ≤ (run_single_turn_sync (⟨[sampleInterruptChunk2], 3⟩ :: [⟨[], 1⟩])
          (⟨2, none, 0⟩ :: []) true 0).invocationsUsed := by
  refine ⟨by decide, by decide, ?_, ?_⟩
  · exact (custom_json_amended.2.2 ⟨[sampleInterruptChunk2], 3⟩ [⟨[], 1⟩] [] 0 0
      (by decide)).1
  · exact (custom_json_amended.2.2 ⟨[sampleInterruptChunk2], 3⟩ [⟨[], 1⟩] [] 0 0
      (by decide)).2 (by simp)

/-- **C8**: an interrupt chunk whose `action_requests` list is empty or
absent yields a pending-action count of exactly 1, and the driver
invokes the Decision Collector with `num_actions = 1`, not 0. -/
theorem empty_actions_default_one :
    ∀ (idata : InterruptData),
      idata.action_requests = none ∨ idata.action_requests = some [] →
      pendingCount ⟨ChunkStatus.interrupt, some idata⟩ = 1 ∧
      ∀ (d : Nat) (ch : OperatorChoice) (restPlans : List InvocationPlan)
        (restChoices : List OperatorChoice) (t0 : Nat),
        Event.collect 1 ∈ (run_single_turn_sync
            (⟨[⟨ChunkStatus.interrupt, some idata⟩], d⟩ :: restPlans)
            (ch :: restChoices) true t0).events := by
  intro idata hempty
  have hpc : pendingCount ⟨ChunkStatus.interrupt, some idata⟩ = 1 := by
    rcases hempty with h | h <;>
      simp [pendingCount, interruptGet, actionRequestsGet, h]
  refine ⟨hpc, ?_⟩
  intro d ch restPlans restChoices t0
  have hscan : chunkScan [⟨ChunkStatus.interrupt, some idata⟩] true false 0
      = ⟨[Event.spinnerStop,
          Event.printChunk ⟨ChunkStatus.interrupt, some idata⟩],
         false, true, 1⟩ := by
    simp [chunkScan, hpc]
  simp only [run_single_turn_sync, runTurnLoop, hscan]
  rcases hh : handle_interrupt_input 1 ch.menu ch.parsed with _ | ds
  · simp [hh]
  · simp [hh]

/-- Witness for **C8**: an interrupt carrying an explicitly empty
action-request list leads to a collector call with count 1. -/
theorem empty_actions_default_one_witness :
    pendingCount ⟨ChunkStatus.interrupt, some ⟨some [], some []⟩⟩ = 1 ∧
    Event.collect 1 ∈ (run_single_turn_sync
        [⟨[⟨ChunkStatus.interrupt, some ⟨some [], some []⟩⟩], 2⟩]
        [⟨0, none, 1⟩] true 0).events := by
  have h := empty_actions_default_one ⟨some [], some []⟩ (Or.inr rfl)
  exact ⟨h.1, h.2 2 ⟨0, none, 1⟩ [] [] 0⟩

/-- **C2**: when `interactive` is disabled, each turn driver renders
every chunk of the stream (interrupt chunks included) and exits its
invoke-resume loop immediately after the stream is exhausted: exactly
one engine invocation, no Decision Collector call, no resume input —
in both CLI variants. -/
theorem noninteractive_exits_immediately :
    (∀ (plan : InvocationPlan) (restPlans : List InvocationPlan)
        (choices : List OperatorChoice) (t0 : Nat),
        (run_single_turn_sync (plan :: restPlans) choices false t0).invocationsUsed
            = 1 ∧
        (run_single_turn_sync (plan :: restPlans) choices false t0).outcome
            = TurnOutcome.finished plan.duration ∧
        (∀ n, Event.collect n
          ∉ (run_single_turn_sync (plan :: restPlans) choices false t0).events) ∧
        (∀ ds, Event.resume ds
          ∉ (run_single_turn_sync (plan :: restPlans) choices false t0).events) ∧
        (∀ c, c ∈ plan.chunks → Event.printChunk c
          ∈ (run_single_turn_sync (plan :: restPlans) choices false t0).events)) ∧
    (∀ (chunks : List Chunk) (restStreams : List (List Chunk))
        (choices : List (Int × Option Decision)),
        (lgRunLoop false (chunks :: restStreams) choices).invocationsUsed = 1 ∧
        (lgRunLoop false (chunks :: restStreams) choices).outcome
            = LgOutcome.finished ∧
        (∀ idata, LgEvent.collect idata
          ∉ (lgRunLoop false (chunks :: restStreams) choices).events) ∧
        (∀ ds, LgEvent.resume ds
          ∉ (lgRunLoop false (chunks :: restStreams) choices).events) ∧
        (∀ c, c ∈ chunks → LgEvent.printChunk c
          ∈ (lgRunLoop false (chunks :: restStreams) choices).events)) := by
  constructor
  · intro plan restPlans choices t0
    have hrun : run_single_turn_sync (plan :: restPlans) choices false t0
        = ⟨Event.spinnerStart :: ((chunkScan plan.chunks true false 0).events
            ++ (if (chunkScan plan.chunks true false 0).first_chunk
                then [Event.spinnerStop] else [])),
           TurnOutcome.finished (t0 + plan.duration - t0), 1, 0⟩ := by
      simp [run_single_turn_sync, runTurnLoop]
    rw [hrun]
    refine ⟨rfl, by rw [Nat.add_sub_cancel_left], ?_, ?_, ?_⟩
    · intro n hmem
      rcases List.mem_cons.mp hmem with h | h
      · cases h
      · rcases List.mem_append.mp h with h | h
        · rcases chunkScan_events_shape _ _ _ _ _ h with h | ⟨c, -, h⟩ <;> simp at h
        · cases hf : (chunkScan plan.chunks true false 0).first_chunk <;>
            rw [hf] at h <;> simp at h
    · intro ds hmem
      rcases List.mem_cons.mp hmem with h | h
      · cases h
      · rcases List.mem_append.mp h with h | h
        · rcases chunkScan_events_shape _ _ _ _ _ h with h | ⟨c, -, h⟩ <;> simp at h
        · cases hf : (chunkScan plan.chunks true false 0).first_chunk <;>
            rw [hf] at h <;> simp at h
    · intro c hc
      exact List.mem_cons_of_mem _
        (List.mem_append_left _ (chunkScan_print_mem _ _ _ _ c hc))
  · intro chunks restStreams choices
    have hrun : lgRunLoop false (chunks :: restStreams) choices
        = ⟨chunks.map LgEvent.printChunk, LgOutcome.finished, 1⟩ := by
      simp [lgRunLoop]
    rw [hrun]
    refine ⟨rfl, rfl, ?_, ?_, ?_⟩
    · intro idata hmem
      simp at hmem
    · intro ds hmem
      simp at hmem
    · intro c hc
      exact List.mem_map_of_mem _ hc

/-- Witness for **C2**: a single invocation whose stream holds one
interrupt chunk is rendered and the run ends, in both variants. -/
theorem noninteractive_exits_immediately_witness :
    Event.printChunk sampleInterruptChunk2
      ∈ (run_single_turn_sync [⟨[sampleInterruptChunk2], 3⟩] [] false 7).events ∧
    LgEvent.printChunk sampleInterruptChunk2
      ∈ (lgRunLoop false [[sampleInterruptChunk2]] []).events := by
  constructor
  · exact (noninteractive_exits_immediately.1 ⟨[sampleInterruptChunk2], 3⟩ [] [] 7).2.2.2.2
      sampleInterruptChunk2 (by decide)
  · exact (noninteractive_exits_immediately.2 [sampleInterruptChunk2] [] []).2.2.2.2
      sampleInterruptChunk2 (by decide)

/-- When the driver loop ends normally, the elapsed time it returns is
the total over ALL engine invocations it performed plus all operator
decision times — relative to a clock started `extra` before the loop
entry reading `t0 + extra`. -/
theorem runTurnLoop_finished_elapsed :
    ∀ (plans : List InvocationPlan) (choices : List OperatorChoice)
      (interactive : Bool) (t0 extra e : Nat),
      (runTurnLoop interactive t0 plans choices (t0 + extra)).outcome
        = TurnOutcome.finished e →
      e = extra
        + ((plans.take (runTurnLoop interactive t0 plans choices
              (t0 + extra)).invocationsUsed).map InvocationPlan.duration).sum
        + ((choices.take (runTurnLoop interactive t0 plans choices
              (t0 + extra)).choicesUsed).map OperatorChoice.thinkTime).sum := by
  intro plans
  induction plans with
  | nil =>
    intro choices interactive t0 extra e h
    simp [runTurnLoop] at h
  | cons plan restPlans ih =>
    intro choices interactive t0 extra e h
    by_cases hcase :
        ((chunkScan plan.chunks true false 0).has_interrupt && interactive) = true
    · rcases choices with _ | ⟨ch, restChoices⟩
      · have houtcome : (runTurnLoop interactive t0 (plan :: restPlans) []
            (t0 + extra)).outcome = TurnOutcome.outOfModel := by
          simp [runTurnLoop, hcase]
        rw [houtcome] at h
        cases h
      · rcases hh : handle_interrupt_input
            (chunkScan plan.chunks true false 0).num_pending_actions
            ch.menu ch.parsed with _ | ds
        · have houtcome : (runTurnLoop interactive t0 (plan :: restPlans)
              (ch :: restChoices) (t0 + extra)).outcome = TurnOutcome.exited := by
            simp [runTurnLoop, hcase, hh]
          rw [houtcome] at h
          cases h
        · have houtcome : (runTurnLoop interactive t0 (plan :: restPlans)
              (ch :: restChoices) (t0 + extra)).outcome
              = (runTurnLoop interactive t0 restPlans restChoices
                  (t0 + extra + plan.duration + ch.thinkTime)).outcome := by
            simp [runTurnLoop, hcase, hh]
          have hinv : (runTurnLoop interactive t0 (plan :: restPlans)
              (ch :: restChoices) (t0 + extra)).invocationsUsed
              = (runTurnLoop interactive t0 restPlans restChoices
                  (t0 + extra + plan.duration + ch.thinkTime)).invocationsUsed + 1 := by
            simp [runTurnLoop, hcase, hh]
          have hch : (runTurnLoop interactive t0 (plan :: restPlans)
              (ch :: restChoices) (t0 + extra)).choicesUsed
              = (runTurnLoop interactive t0 restPlans restChoices
                  (t0 + extra + plan.duration + ch.thinkTime)).choicesUsed + 1 := by
            simp [runTurnLoop, hcase, hh]
          rw [houtcome] at h
          rw [hinv, hch]
          have harg : t0 + extra + plan.duration + ch.thinkTime
              = t0 + (extra + plan.duration + ch.thinkTime) := by omega
          rw [harg] at h ⊢
          have hrec := ih restChoices interactive t0
            (extra + plan.duration + ch.thinkTime) e h
          simp only [List.take_succ_cons, List.map_cons, List.sum_cons] at hrec ⊢
          omega
    · have hfalse :
          ((chunkScan plan.chunks true false 0).has_interrupt && interactive)
            = false := by
        simpa using hcase
      have houtcome : (runTurnLoop interactive t0 (plan :: restPlans) choices
          (t0 + extra)).outcome
          = TurnOutcome.finished (t0 + extra + plan.duration - t0) := by
        simp [runTurnLoop, hfalse]
      have hinv : (runTurnLoop interactive t0 (plan :: restPlans) choices
          (t0 + extra)).invocationsUsed = 1 := by
        simp [runTurnLoop, hfalse]
      have hch : (runTurnLoop interactive t0 (plan :: restPlans) choices
          (t0 + extra)).choicesUsed = 0 := by
        simp [runTurnLoop, hfalse]
      rw [houtcome] at h
      injection h with h
      rw [hinv, hch]
      simp only [List.take_succ_cons, List.take_zero, List.map_cons,
        List.map_nil, List.sum_cons, List.sum_nil]
      omega

/-- **C7**: the per-turn driver entry point returns the elapsed time
measured from before the first engine invocation until the final one
completes: the returned duration is the sum over ALL invocations
performed in the turn (plus the operator's decision times), not only
the last invocation. -/
theorem elapsed_spans_all_invocations :
    ∀ (plans : List InvocationPlan) (choices : List OperatorChoice)
      (interactive : Bool) (t0 e : Nat),
      (run_single_turn_sync plans choices interactive t0).outcome
        = TurnOutcome.finished e →
      e = ((plans.take (run_single_turn_sync plans choices interactive
            t0).invocationsUsed).map InvocationPlan.duration).sum
        + ((choices.take (run_single_turn_sync plans choices interactive
            t0).choicesUsed).map OperatorChoice.thinkTime).sum := by
  intro plans choices interactive t0 e h
  have h2 := runTurnLoop_finished_elapsed plans choices interactive t0 0 e
    (by simpa [run_single_turn_sync] using h)
  simpa [run_single_turn_sync] using h2

/-- Witness for **C7**: a first invocation of 3 time units interrupts,
the operator takes 5, the resume invocation takes 4; the driver
returns 12 = 3 + 5 + 4, spanning both invocations. -/
theorem elapsed_spans_all_invocations_witness :
    12 = (([⟨[sampleStreamChunk, sampleInterruptChunk2], 3⟩,
            (⟨[sampleStreamChunk], 4⟩ : InvocationPlan)].take
          (run_single_turn_sync
            [⟨[sampleStreamChunk, sampleInterruptChunk2], 3⟩, ⟨[sampleStreamChunk], 4⟩]
            [⟨0, none, 5⟩] true 100).invocationsUsed).map
          InvocationPlan.duration).sum
      + (([(⟨0, none, 5⟩ : OperatorChoice)].take
          (run_single_turn_sync
            [⟨[sampleStreamChunk, sampleInterruptChunk2], 3⟩, ⟨[sampleStreamChunk], 4⟩]
            [⟨0, none, 5⟩] true 100).choicesUsed).map
          OperatorChoice.thinkTime).sum :=
  elapsed_spans_all_invocations
    [⟨[sampleStreamChunk, sampleInterruptChunk2], 3⟩, ⟨[sampleStreamChunk], 4⟩]
    [⟨0, none, 5⟩] true 100 12 (by decide)

/-- The per-invocation chunk loop preserves spinner discipline: the
running flag equals the `first_chunk` variable on entry and on exit,
and no chunk is rendered while the spinner runs. -/
theorem chunkScan_spinnerOk :
    ∀ (chunks : List Chunk) (first hi : Bool) (np : Nat) (k : List Event),
      spinnerOkAux ((chunkScan chunks first hi np).events ++ k) first
        = spinnerOkAux k (chunkScan chunks first hi np).first_chunk := by
  intro chunks
  induction chunks with
  | nil => intro first hi np k; rfl
  | cons c rest ih =>
    intro first hi np k
    cases first <;> simp [chunkScan, spinnerOkAux, ih]

/-- Spinner discipline holds for the whole driver loop, whatever the
clock reading. -/
theorem runTurnLoop_spinnerOk :
    ∀ (plans : List InvocationPlan) (choices : List OperatorChoice)
      (interactive : Bool) (t0 now : Nat),
      spinnerOkAux (runTurnLoop interactive t0 plans choices now).events false
        = true := by
  intro plans
  induction plans with
  | nil => intro choices interactive t0 now; rfl
  | cons plan restPlans ih =>
    intro choices interactive t0 now
    by_cases hcase :
        ((chunkScan plan.chunks true false 0).has_interrupt && interactive) = true
    · rcases choices with _ | ⟨ch, restChoices⟩
      · have hev : (runTurnLoop interactive t0 (plan :: restPlans) [] now).events
            = Event.spinnerStart :: ((chunkScan plan.chunks true false 0).events
              ++ (if (chunkScan plan.chunks true false 0).first_chunk
                  then [Event.spinnerStop] else [])) := by
          simp [runTurnLoop, hcase]
        rw [hev]
        show spinnerOkAux ((chunkScan plan.chunks true false 0).events ++ _) true = true
        rw [chunkScan_spinnerOk]
        cases hf : (chunkScan plan.chunks true false 0).first_chunk <;>
          simp [spinnerOkAux]
      · rcases hh : handle_interrupt_input
            (chunkScan plan.chunks true false 0).num_pending_actions
            ch.menu ch.parsed with _ | ds
        · have hev : (runTurnLoop interactive t0 (plan :: restPlans)
              (ch :: restChoices) now).events
              = Event.spinnerStart :: (((chunkScan plan.chunks true false 0).events
                ++ (if (chunkScan plan.chunks true false 0).first_chunk
                    then [Event.spinnerStop] else []))
                ++ [Event.collect
                    (chunkScan plan.chunks true false 0).num_pending_actions]) := by
            simp [runTurnLoop, hcase, hh]
          rw [hev]
          show spinnerOkAux (((chunkScan plan.chunks true false 0).events ++ _) ++ _)
              true = true
          rw [List.append_assoc, chunkScan_spinnerOk]
          cases hf : (chunkScan plan.chunks true false 0).first_chunk <;>
            simp [spinnerOkAux]
        · have hev : (runTurnLoop interactive t0 (plan :: restPlans)
              (ch :: restChoices) now).events
              = Event.spinnerStart :: (((chunkScan plan.chunks true false 0).events
                ++ (if (chunkScan plan.chunks true false 0).first_chunk
                    then [Event.spinnerStop] else []))
                ++ Event.collect
                    (chunkScan plan.chunks true false 0).num_pending_actions
                  :: Event.resume ds
                  :: (runTurnLoop interactive t0 restPlans restChoices
                      (now + plan.duration + ch.thinkTime)).events) := by
            simp [runTurnLoop, hcase, hh]
          rw [hev]
          show spinnerOkAux (((chunkScan plan.chunks true false 0).events ++ _) ++ _)
              true = true
          rw [List.append_assoc, chunkScan_spinnerOk]
          cases hf : (chunkScan plan.chunks true false 0).first_chunk <;>
            simp [spinnerOkAux, ih]
    · have hfalse :
          ((chunkScan plan.chunks true false 0).has_interrupt && interactive)
            = false := by
        simpa using hcase
      have hev : (runTurnLoop interactive t0 (plan :: restPlans) choices now).events
          = Event.spinnerStart :: ((chunkScan plan.chunks true false 0).events
            ++ (if (chunkScan plan.chunks true false 0).first_chunk
                then [Event.spinnerStop] else [])) := by
        simp [runTurnLoop, hfalse]
      rw [hev]
      show spinnerOkAux ((chunkScan plan.chunks true false 0).events ++ _) true = true
      rw [chunkScan_spinnerOk]
      cases hf : (chunkScan plan.chunks true false 0).first_chunk <;>
        simp [spinnerOkAux]

/-- **C9**: in every engine invocation performed by the driver, the
spinner is stopped before the first chunk is rendered, and it is
stopped unconditionally before decision handling or return even when
the stream produced zero chunks: the whole event trace satisfies the
spinner discipline. -/
theorem spinner_stopped_before_rendering :
    ∀ (plans : List InvocationPlan) (choices : List OperatorChoice)
      (interactive : Bool) (t0 : Nat),
      spinnerOkAux (run_single_turn_sync plans choices interactive t0).events false
        = true := by
  intro plans choices interactive t0
  exact runTurnLoop_spinnerOk plans choices interactive t0 t0

theorem chunkScan_not_collect (chunks : List Chunk) (first hi : Bool) (np : Nat) :
    ∀ e ∈ (chunkScan chunks first hi np).events, isCollect e = false := by
  intro e he
  rcases chunkScan_events_shape chunks first hi np e he with h | ⟨c, -, h⟩ <;>
    subst h <;> rfl

theorem chunkScan_not_start (chunks : List Chunk) (first hi : Bool) (np : Nat) :
    ∀ e ∈ (chunkScan chunks first hi np).events, (!isStart e) = true := by
  intro e he
  rcases chunkScan_events_shape chunks first hi np e he with h | ⟨c, -, h⟩ <;>
    subst h <;> rfl

theorem takeWhile_append_of_all {α : Type} (p : α → Bool) :
    ∀ (l1 l2 : List α), (∀ x ∈ l1, p x = true) →
      (l1 ++ l2).takeWhile p = l1 ++ l2.takeWhile p := by
  intro l1
  induction l1 with
  | nil => intro l2 h; simp
  | cons a l ih =>
    intro l2 h
    simp only [List.cons_append, List.takeWhile_cons, h a (by simp)]
    exact congrArg (a :: ·) (ih l2 (fun x hx => h x (by simp [hx])))

theorem runTurnLoop_events_head (interactive : Bool) (t0 : Nat)
    (plans : List InvocationPlan) (choices : List OperatorChoice) (now : Nat) :
    (runTurnLoop interactive t0 plans choices now).events = []
      ∨ ∃ tl, (runTurnLoop interactive t0 plans choices now).events
          = Event.spinnerStart :: tl := by
  rcases plans with _ | ⟨plan, restPlans⟩
  · exact Or.inl rfl
  · right
    simp only [runTurnLoop]
    split
    · split
      · exact ⟨_, rfl⟩
      · split
        · exact ⟨_, rfl⟩
        · exact ⟨_, rfl⟩
    · exact ⟨_, rfl⟩

theorem collect_count_helper (sev tail rest' : List Event) (np : Nat)
    (hs : ∀ e ∈ sev, isCollect e = false)
    (ht : ∀ e ∈ tail, isCollect e = false)
    (hr : ∀ e ∈ rest', isCollect e = false) :
    ((sev ++ tail ++ Event.collect np :: rest').filter isCollect).length = 1 ∧
    ∀ n, Event.collect n ∈ sev ++ tail ++ Event.collect np :: rest' → n = np := by
  constructor
  · rw [List.filter_append, List.filter_append, List.filter_cons]
    rw [List.filter_eq_nil_iff.mpr (by simpa using hs),
        List.filter_eq_nil_iff.mpr (by simpa using ht),
        List.filter_eq_nil_iff.mpr (by simpa using hr)]
    simp [isCollect]
  · intro n hmem
    rcases List.mem_append.mp hmem with h | h
    · rcases List.mem_append.mp h with h | h
      · have := hs _ h
        simp [isCollect] at this
      · have := ht _ h
        simp [isCollect] at this
    · rcases List.mem_cons.mp h with h | h
      · simpa using h
      · have := hr _ h
        simp [isCollect] at this

theorem takeWhile_cons_of_pos {α : Type} (p : α → Bool) (a : α) (l : List α)
    (h : p a = true) : (a :: l).takeWhile p = a :: l.takeWhile p := by
  simp [List.takeWhile_cons, h]

theorem takeWhile_all {α : Type} (p : α → Bool) :
    ∀ (l : List α), (∀ x ∈ l, p x = true) → l.takeWhile p = l := by
  intro l
  induction l with
  | nil => intro h; rfl
  | cons a rest ih =>
    intro h
    simp only [List.takeWhile_cons, h a (by simp)]
    exact congrArg (a :: ·) (ih (fun x hx => h x (by simp [hx])))

/-- **C10**: when a single engine invocation streams more than one
interrupt chunk, the driver overwrites rather than accumulates the
pending-action count: after the stream is exhausted the Decision
Collector is invoked exactly once for that invocation, with the action
count of only the LAST interrupt chunk seen. -/
theorem multiple_interrupts_overwrite :
    ∀ (plan : InvocationPlan) (ch : OperatorChoice)
      (restPlans : List InvocationPlan) (restChoices : List OperatorChoice)
      (t0 : Nat),
      2 ≤ (plan.chunks.filter fun c => c.status == ChunkStatus.interrupt).length →
      ((firstInvocationEvents (run_single_turn_sync (plan :: restPlans)
          (ch :: restChoices) true t0)).filter isCollect).length = 1 ∧
      ∀ n, Event.collect n ∈ firstInvocationEvents (run_single_turn_sync
          (plan :: restPlans) (ch :: restChoices) true t0) →
        ((plan.chunks.filter fun c => c.status == ChunkStatus.interrupt).getLast?).map
          pendingCount = some n := by
  intro plan ch restPlans restChoices t0 hlen
  have hfne : (plan.chunks.filter fun c => c.status == ChunkStatus.interrupt) ≠ [] := by
    intro hcontra
    rw [hcontra] at hlen
    simp at hlen
  have hasInt : (chunkScan plan.chunks true false 0).has_interrupt = true := by
    rw [chunkScan_has_interrupt]
    simp only [Bool.false_or, List.any_eq_true]
    obtain ⟨x, hx⟩ := List.exists_mem_of_ne_nil _ hfne
    have hx2 := List.mem_filter.mp hx
    exact ⟨x, hx2.1, hx2.2⟩
  obtain ⟨lastC, hlast⟩ : ∃ c,
      (plan.chunks.filter fun c => c.status == ChunkStatus.interrupt).getLast?
        = some c := by
    have hs := (List.getLast?_isSome
      (l := plan.chunks.filter fun c => c.status == ChunkStatus.interrupt)).mpr hfne
    exact Option.isSome_iff_exists.mp hs
  have hnp : (chunkScan plan.chunks true false 0).num_pending_actions
      = pendingCount lastC := by
    rw [chunkScan_pending]
    unfold lastInterruptPending
    rw [hlast]
  have htailC : ∀ e ∈ (if (chunkScan plan.chunks true false 0).first_chunk
      then [Event.spinnerStop] else []), isCollect e = false := by
    cases hf : (chunkScan plan.chunks true false 0).first_chunk
    · intro e he; simp at he
    · intro e he
      simp at he
      subst he
      rfl
  have htailS : ∀ e ∈ (if (chunkScan plan.chunks true false 0).first_chunk
      then [Event.spinnerStop] else []), (!isStart e) = true := by
    cases hf : (chunkScan plan.chunks true false 0).first_chunk
    · intro e he; simp at he
    · intro e he
      simp at he
      subst he
      rfl
  have hall : ∀ x ∈ (chunkScan plan.chunks true false 0).events
      ++ (if (chunkScan plan.chunks true false 0).first_chunk
          then [Event.spinnerStop] else []), (!isStart x) = true := by
    intro x hx
    rcases List.mem_append.mp hx with h | h
    · exact chunkScan_not_start _ _ _ _ x h
    · exact htailS x h
  rcases hh : handle_interrupt_input
      (chunkScan plan.chunks true false 0).num_pending_actions
      ch.menu ch.parsed with _ | ds
  · -- operator chose the Exit row: sys.exit after one collector call
    have hev : (run_single_turn_sync (plan :: restPlans)
        (ch :: restChoices) true t0).events
        = Event.spinnerStart :: (((chunkScan plan.chunks true false 0).events
          ++ (if (chunkScan plan.chunks true false 0).first_chunk
              then [Event.spinnerStop] else []))
          ++ [Event.collect
              (chunkScan plan.chunks true false 0).num_pending_actions]) := by
      simp [run_single_turn_sync, runTurnLoop, hasInt, hh]
    have hfi : firstInvocationEvents (run_single_turn_sync (plan :: restPlans)
        (ch :: restChoices) true t0)
        = ((chunkScan plan.chunks true false 0).events
          ++ (if (chunkScan plan.chunks true false 0).first_chunk
              then [Event.spinnerStop] else []))
          ++ [Event.collect
              (chunkScan plan.chunks true false 0).num_pending_actions] := by
      unfold firstInvocationEvents
      rw [hev]
      refine takeWhile_all _ _ ?_
      intro x hx
      rcases List.mem_append.mp hx with h | h
      · exact hall x h
      · simp at h
        subst h
        rfl
    obtain ⟨h1, h2⟩ := collect_count_helper
      (chunkScan plan.chunks true false 0).events
      (if (chunkScan plan.chunks true false 0).first_chunk
        then [Event.spinnerStop] else [])
      [] (chunkScan plan.chunks true false 0).num_pending_actions
      (chunkScan_not_collect _ _ _ _) htailC (by intro e he; simp at he)
    constructor
    · rw [hfi]
      exact h1
    · intro n hn
      rw [hfi] at hn
      have hnnp := h2 n hn
      rw [hlast]
      exact congrArg some ((hnnp.trans hnp).symm)
  · -- operator resumed: one collector call, then the loop continues
    have hrtw : ((runTurnLoop true t0 restPlans restChoices
        (t0 + plan.duration + ch.thinkTime)).events).takeWhile
          (fun e => !isStart e) = [] := by
      rcases runTurnLoop_events_head true t0 restPlans restChoices
          (t0 + plan.duration + ch.thinkTime) with h | ⟨tl, h⟩
      · rw [h]
        rfl
      · rw [h]
        rfl
    have hev : (run_single_turn_sync (plan :: restPlans)
        (ch :: restChoices) true t0).events
        = Event.spinnerStart :: (((chunkScan plan.chunks true false 0).events
          ++ (if (chunkScan plan.chunks true false 0).first_chunk
              then [Event.spinnerStop] else []))
          ++ Event.collect
              (chunkScan plan.chunks true false 0).num_pending_actions
            :: Event.resume ds
            :: (runTurnLoop true t0 restPlans restChoices
                (t0 + plan.duration + ch.thinkTime)).events) := by
      simp [run_single_turn_sync, runTurnLoop, hasInt, hh]
    have hfi : firstInvocationEvents (run_single_turn_sync (plan :: restPlans)
        (ch :: restChoices) true t0)
        = ((chunkScan plan.chunks true false 0).events
          ++ (if (chunkScan plan.chunks true false 0).first_chunk
              then [Event.spinnerStop] else []))
          ++ Event.collect
              (chunkScan plan.chunks true false 0).num_pending_actions
            :: [Event.resume ds] := by
      unfold firstInvocationEvents
      rw [hev]
      show ((((chunkScan plan.chunks true false 0).events
          ++ (if (chunkScan plan.chunks true false 0).first_chunk
              then [Event.spinnerStop] else []))
          ++ Event.collect
              (chunkScan plan.chunks true false 0).num_pending_actions
            :: Event.resume ds
            :: (runTurnLoop true t0 restPlans restChoices
                (t0 + plan.duration + ch.thinkTime)).events)).takeWhile
          (fun e => !isStart e) = _
      rw [takeWhile_append_of_all _ _ _ hall,
          takeWhile_cons_of_pos _ _ _ rfl,
          takeWhile_cons_of_pos _ _ _ rfl, hrtw]
    obtain ⟨h1, h2⟩ := collect_count_helper
      (chunkScan plan.chunks true false 0).events
      (if (chunkScan plan.chunks true false 0).first_chunk
        then [Event.spinnerStop] else [])
      [Event.resume ds] (chunkScan plan.chunks true false 0).num_pending_actions
      (chunkScan_not_collect _ _ _ _) htailC
      (by intro e he; simp at he; subst he; rfl)
    constructor
    · rw [hfi]
      exact h1
    · intro n hn
      rw [hfi] at hn
      have hnnp := h2 n hn
      rw [hlast]
      exact congrArg some ((hnnp.trans hnp).symm)

/-- Witness for **C10**: one invocation streaming two interrupt chunks
— counts 2 then 1 — leads to exactly one collector call. -/
theorem multiple_interrupts_overwrite_witness :
    2 ≤ ([sampleInterruptChunk2, sampleInterruptChunkEmpty].filter
        fun c => c.status == ChunkStatus.interrupt).length ∧
    ((firstInvocationEvents (run_single_turn_sync
        [⟨[sampleInterruptChunk2, sampleInterruptChunkEmpty], 3⟩]
        [⟨0, none, 1⟩] true 0)).filter isCollect).length = 1 := by
  refine ⟨by decide, ?_⟩
  exact (multiple_interrupts_overwrite
    ⟨[sampleInterruptChunk2, sampleInterruptChunkEmpty], 3⟩
    ⟨0, none, 1⟩ [] [] 0 (by decide)).1

end LanggraphCli
